import Mathlib

/-!
Shallow embedding of the C-style printf renderer of `acpica-rs`
(`src/acpica-rs/src/format.rs`), used by the crate to implement the
ACPICA `AcpiOsVprintf` callback.

Modelling conventions:
* The foreign variadic argument list (`VaListImpl`) is modelled as a
  `List ArgVal` of typed slots, consumed front to back; reading from an
  exhausted list (or a slot of the wrong type, which is undefined
  behaviour in the source) yields `FormatError.argumentExhausted`.
* Rust panics are modelled as `Except.error`: each panic site of the
  source is mapped to the error kind its message describes --
  the panic for a format string that ends right after `%` and the panic
  for an unknown conversion letter map to `malformedFormatString`; the
  `todo!` for the `n` conversion and for the length modifiers and the
  panic for floating-point conversion letters map to
  `unsupportedConversion`; the panic for a negative dynamically supplied
  precision maps to `invalidPrecision`; the `expect` on `from_utf8` maps
  to `invalidEncoding`.  Panics that do not correspond to a documented
  error condition (the `try_into().unwrap()` calls, the two
  unreachable-case panics in the digit emitter, and fuel exhaustion of
  the main loop, which cannot occur for `fuel = length + 1`) are
  modelled as `panicked`.
* Machine integers: `usize`/`u32` are `Nat` with an explicit `% 2 ^ w`
  where the source can wrap (release-mode wrapping arithmetic), and the
  `TryInto::<u32>::try_into(..).unwrap()` on the precision is an explicit
  range check.  `c_int` is `Int`; `c_char` is a signed byte (`Int`),
  matching the crate's `x86_64-unknown-gnu` link target where `c_char`
  is `i8`, so the `c_char -> u8` conversion of the `%c` branch fails on
  negative values.
* Strings: memory is a `List Nat` of bytes; a string argument is a byte
  address into it.  Reads beyond the modelled memory return byte 0.
* The `core::fmt::Formatter` output sink is modelled by returning the
  written characters as a `List Char`; a render that panics mid-way
  returns only the error (the spec declares partial output unusable).
-/

namespace CFmt

/-- Error taxonomy of the render path; see the module docstring for the
mapping from the source's panic sites. -/
inductive FormatError where
  | malformedFormatString
  | unsupportedConversion
  | invalidPrecision
  | invalidEncoding
  | argumentExhausted
  | panicked
  deriving DecidableEq, Repr

/-- One typed slot of the variadic argument list: `int` is a `c_int`,
`uint` a `c_uint`, `char` a `c_char` (signed byte), `ptr` a byte address
into the modelled memory (used for both `%s` and `%p`). -/
inductive ArgVal where
  | int (v : Int)
  | uint (v : Nat)
  | char (v : Int)
  | ptr (a : Nat)
  deriving DecidableEq, Repr

/-- The `Base` enum of `format.rs`. -/
inductive Base where
  | octal
  | decimal
  | hex
  deriving DecidableEq, Repr

/-- Model of `Base::as_number`. -/
def Base.as_number : Base → Nat
  | Base.octal => 8
  | Base.decimal => 10
  | Base.hex => 16

/-- Model of `Base::prefix`: the alternate-form prefix characters.  Octal's is the
single character `0`. -/
def Base.prefixChars : Base → Bool → List Char
  | Base.octal, _ => ['0']
  | Base.decimal, false => ['0', 'd']
  | Base.decimal, true => ['0', 'D']
  | Base.hex, false => ['0', 'x']
  | Base.hex, true => ['0', 'X']

/-- The `FormatParameters` struct of `format.rs`. -/
structure FormatParameters where
  justify_left : Bool := false
  always_show_sign : Bool := false
  prepend_space : Bool := false
  alternative : Bool := false
  leading_zeroes : Bool := false
  minimum_width : Option Nat := none
  precision : Option Nat := none
  deriving DecidableEq, Repr

/-- The `UnsignedIntFormatParams` struct; `prefix_flag` is the source's
`print_prefix` field (renamed). -/
structure UnsignedIntFormatParams where
  pad_char : Char
  base : Base
  justify_left : Bool
  prefix_flag : Bool
  capital : Bool
  precision : Nat
  min_length : Nat
  deriving DecidableEq, Repr

/-- The `SignedIntFormatParams` struct. -/
structure SignedIntFormatParams where
  pad_char : Char
  justify_left : Bool
  precision : Nat
  min_length : Nat
  always_print_sign : Bool
  prepend_space : Bool
  deriving DecidableEq, Repr

/-- One digit character in the given case, mirroring the digits produced
by Rust's `o`/`x`/`X`/decimal format specifiers. -/
def digitChar (capital : Bool) (d : Nat) : Char :=
  if d < 10 then Char.ofNat (48 + d)
  else if capital then Char.ofNat (65 + (d - 10))
  else Char.ofNat (97 + (d - 10))

/-- Digit expansion of `n` in base `b`, most significant first, by
repeated division; the fuel argument bounds the recursion (`n` itself is
always enough fuel for `b >= 2`). -/
def natDigitsAux (b : Nat) (capital : Bool) : Nat → Nat → List Char
  | 0, _ => []
  | fuel + 1, n =>
    if n = 0 then []
    else natDigitsAux b capital fuel (n / b) ++ [digitChar capital (n % b)]

/-- The digit string Rust's integer format specifiers produce for `n` in
base `b` (at least one digit, `0` for zero). -/
def natDigits (b : Nat) (capital : Bool) (n : Nat) : List Char :=
  if n = 0 then ['0'] else natDigitsAux b capital n n

/-- Left-pad a digit string with `0` to width `p`, mirroring the
`0>p$` fill/alignment used by the source's format strings. -/
def padLeftZero (p : Nat) (s : List Char) : List Char :=
  List.replicate (p - s.length) '0' ++ s

/-- Floor logarithm of `n` in base `b` by repeated division (fuelled;
`n` is always enough fuel). -/
def ilogAux (b : Nat) : Nat → Nat → Nat
  | 0, _ => 0
  | fuel + 1, n => if n < b then 0 else ilogAux b fuel (n / b) + 1

/-- Rust's `usize::checked_ilog`: `none` for value 0 or base below 2. -/
def checked_ilog (b n : Nat) : Option Nat :=
  if n = 0 ∨ b < 2 then none else some (ilogAux b n n)

/-- The digit-count expression `value.checked_ilog(base).unwrap_or(0) + 1`
used by both integer renderers. -/
def digitLen (b n : Nat) : Nat := (checked_ilog b n).getD 0 + 1

/-- The digit-sequence part of `format_int_unsigned` (the `match` on
base and case at the end of the function): octal with value 0 and
precision 0 emits nothing, the uppercase octal/decimal arms are
unreachable panics, every other arm emits the digits zero-padded to the
precision. -/
def unsignedDigits (base : Base) (capital : Bool) (precision value : Nat) :
    Except FormatError (List Char) :=
  match base, capital with
  | Base.octal, true => Except.error FormatError.panicked
  | Base.octal, false =>
    Except.ok (if value = 0 ∧ precision = 0 then []
               else padLeftZero precision (natDigits 8 false value))
  | Base.decimal, true => Except.error FormatError.panicked
  | Base.decimal, false => Except.ok (padLeftZero precision (natDigits 10 false value))
  | Base.hex, true => Except.ok (padLeftZero precision (natDigits 16 true value))
  | Base.hex, false => Except.ok (padLeftZero precision (natDigits 16 false value))

/-- Model of `format_int_unsigned` of `format.rs`.  For the alternate form the
octal case reduces the precision by one (saturating) and the
decimal/hex cases add 2 to the number length; the prefix characters are
then written for every base, octal included.  The number length is a
`u32` (wrapping add modelled with an explicit modulus) and converting
the precision to `u32` panics when it does not fit. -/
def format_int_unsigned (value : Nat) (params0 : UnsignedIntFormatParams) :
    Except FormatError (List Char) :=
  let params := if params0.prefix_flag = true ∧ params0.base = Base.octal
    then { params0 with precision := params0.precision - 1 } else params0
  let prefix_extra : Nat :=
    if params0.prefix_flag = true ∧ ¬params0.base = Base.octal then 2 else 0
  if params.precision < 4294967296 then
    let number_length : Nat :=
      (prefix_extra + max params.precision (digitLen (Base.as_number params.base) value))
        % 4294967296
    let pad_length := params.min_length - number_length
    let pfx : List Char :=
      if params.prefix_flag then Base.prefixChars params.base params.capital else []
    match unsignedDigits params.base params.capital params.precision value with
    | Except.error e => Except.error e
    | Except.ok digits =>
      Except.ok ((if params.justify_left then [] else List.replicate pad_length params.pad_char)
        ++ pfx ++ digits
        ++ (if params.justify_left then List.replicate pad_length params.pad_char else []))
  else Except.error FormatError.panicked

/-- Model of `format_int_signed` of `format.rs`: base-10 digits of the absolute
value, with the number length increased by one only when the value is
negative or `always_print_sign` is set (a prepended space is not
counted), and the sign character chosen as `-` / `+` / space / none. -/
def format_int_signed (value : Int) (params : SignedIntFormatParams) :
    Except FormatError (List Char) :=
  if params.precision < 4294967296 then
    let number_length : Nat :=
      (max params.precision (digitLen 10 value.natAbs)
        + (if value < 0 ∨ params.always_print_sign = true then 1 else 0)) % 4294967296
    let pad_length := params.min_length - number_length
    let sign : List Char :=
      if value < 0 then ['-']
      else if params.always_print_sign then ['+']
      else if params.prepend_space then [' ']
      else []
    Except.ok ((if params.justify_left then [] else List.replicate pad_length params.pad_char)
      ++ sign ++ padLeftZero params.precision (natDigits 10 false value.natAbs)
      ++ (if params.justify_left then List.replicate pad_length params.pad_char else []))
  else Except.error FormatError.panicked

/-- Byte of the modelled memory at an address (0 beyond the end). -/
def byteAt (mem : List Nat) (a : Nat) : Nat := mem.getD a 0

/-- The byte span read by `print_string` (lines 399-414 of `format.rs`):
with a precision, scan up to `precision` indices stopping at the first
zero byte and slice that many bytes; without one, the `CStr` scan up to
the first zero byte. -/
def stringBytes (mem : List Nat) (ptr : Nat) : Option Nat → List Nat
  | some precision =>
    let string_length :=
      ((List.range precision).takeWhile (fun i => byteAt mem (ptr + i) != 0)).length
    (List.range string_length).map (fun i => byteAt mem (ptr + i))
  | none => (mem.drop ptr).takeWhile (fun b => b != 0)

/-- Whether a byte is a UTF-8 continuation byte. -/
def utf8Cont (b : Nat) : Bool := decide (128 ≤ b ∧ b ≤ 191)

/-- Parse one UTF-8 scalar from the front of a byte list, with the same
acceptance ranges as Rust's `str::from_utf8` (no overlong forms, no
surrogates, max U+10FFFF); returns the code point and the rest. -/
def utf8Parse1 : List Nat → Option (Nat × List Nat)
  | [] => none
  | b :: rest =>
    if b ≤ 127 then some (b, rest)
    else if 194 ≤ b ∧ b ≤ 223 then
      match rest with
      | b1 :: r =>
        if utf8Cont b1 then some ((b - 192) * 64 + (b1 - 128), r) else none
      | [] => none
    else if b = 224 then
      match rest with
      | b1 :: b2 :: r =>
        if (160 ≤ b1 ∧ b1 ≤ 191) ∧ utf8Cont b2 = true then
          some ((b1 - 128) * 64 + (b2 - 128), r)
        else none
      | _ => none
    else if (225 ≤ b ∧ b ≤ 236) ∨ (238 ≤ b ∧ b ≤ 239) then
      match rest with
      | b1 :: b2 :: r =>
        if utf8Cont b1 = true ∧ utf8Cont b2 = true then
          some ((b - 224) * 4096 + (b1 - 128) * 64 + (b2 - 128), r)
        else none
      | _ => none
    else if b = 237 then
      match rest with
      | b1 :: b2 :: r =>
        if (128 ≤ b1 ∧ b1 ≤ 159) ∧ utf8Cont b2 = true then
          some ((b - 224) * 4096 + (b1 - 128) * 64 + (b2 - 128), r)
        else none
      | _ => none
    else if b = 240 then
      match rest with
      | b1 :: b2 :: b3 :: r =>
        if (144 ≤ b1 ∧ b1 ≤ 191) ∧ utf8Cont b2 = true ∧ utf8Cont b3 = true then
          some ((b1 - 128) * 4096 + (b2 - 128) * 64 + (b3 - 128), r)
        else none
      | _ => none
    else if 241 ≤ b ∧ b ≤ 243 then
      match rest with
      | b1 :: b2 :: b3 :: r =>
        if utf8Cont b1 = true ∧ utf8Cont b2 = true ∧ utf8Cont b3 = true then
          some ((b - 240) * 262144 + (b1 - 128) * 4096 + (b2 - 128) * 64 + (b3 - 128), r)
        else none
      | _ => none
    else if b = 244 then
      match rest with
      | b1 :: b2 :: b3 :: r =>
        if (128 ≤ b1 ∧ b1 ≤ 143) ∧ utf8Cont b2 = true ∧ utf8Cont b3 = true then
          some ((b - 240) * 262144 + (b1 - 128) * 4096 + (b2 - 128) * 64 + (b3 - 128), r)
        else none
      | _ => none
    else none

/-- Fuelled UTF-8 decoding loop (each step consumes at least one byte,
so the list length is enough fuel). -/
def utf8DecodeAux : Nat → List Nat → Option (List Char)
  | _, [] => some []
  | 0, _ :: _ => none
  | fuel + 1, l =>
    match utf8Parse1 l with
    | none => none
    | some (cp, rest) =>
      match utf8DecodeAux fuel rest with
      | none => none
      | some cs => some (Char.ofNat cp :: cs)

/-- Rust's `str::from_utf8` on a byte list, decoded to characters
(`none` on invalid encoding). -/
def utf8Decode (l : List Nat) : Option (List Char) :=
  utf8DecodeAux l.length l

/-- Model of `print_string` of `format.rs`: read the byte span, require valid
UTF-8 (the `expect` is the `invalidEncoding` error), then pad to the
minimum width with the directive's pad character -- the byte length of
the span, not the character count, is what the width is compared
against, as in the source's `string.len()`. -/
def print_string (mem : List Nat) (ptr : Nat) (params : FormatParameters)
    (pad_char : Char) : Except FormatError (List Char) :=
  let bytes := stringBytes mem ptr params.precision
  match utf8Decode bytes with
  | none => Except.error FormatError.invalidEncoding
  | some s =>
    match params.minimum_width with
    | some minimum_width =>
      let pad_width := minimum_width - bytes.length
      Except.ok ((if params.justify_left then [] else List.replicate pad_width pad_char)
        ++ s
        ++ (if params.justify_left then List.replicate pad_width pad_char else []))
    | none => Except.ok s

/-- Accumulate a literal decimal number from the front of the character
list (the digit loop of `read_format_parameter`); `usize` arithmetic
wraps, hence the modulus. -/
def readNumber : List Char → Nat → Nat × List Char
  | c :: rest, number =>
    if c.isDigit then
      readNumber rest ((number * 10 + (c.toNat - 48)) % 18446744073709551616)
    else (number, c :: rest)
  | [], number => (number, [])

/-- Model of `read_format_parameter` of `format.rs`: a `*` pulls one `c_int` from
the argument list and yields its absolute value plus a was-negative
flag; digits accumulate a literal; anything else leaves the field
unset. -/
def read_format_parameter (chars : List Char) (args : List ArgVal) :
    Except FormatError (Option (Nat × Bool) × List Char × List ArgVal) :=
  match chars with
  | '*' :: rest =>
    match args with
    | ArgVal.int v :: args1 => Except.ok (some (v.natAbs, decide (v < 0)), rest, args1)
    | _ => Except.error FormatError.argumentExhausted
  | c :: _ =>
    if c.isDigit then
      let r := readNumber chars 0
      Except.ok (some (r.1, false), r.2, args)
    else Except.ok (none, chars, args)
  | [] => Except.ok (none, chars, args)

/-- Model of `read_min_width`: a negative dynamic width forces `justify_left`. -/
def read_min_width (chars : List Char) (args : List ArgVal) (justify_left : Bool) :
    Except FormatError (Option Nat × Bool × List Char × List ArgVal) :=
  match read_format_parameter chars args with
  | Except.error e => Except.error e
  | Except.ok (some (result, was_negative), chars1, args1) =>
    Except.ok (some result, (if was_negative then true else justify_left), chars1, args1)
  | Except.ok (none, chars1, args1) => Except.ok (none, justify_left, chars1, args1)

/-- Model of `read_precision`: a negative dynamic precision is the fatal
`invalidPrecision` panic. -/
def read_precision (chars : List Char) (args : List ArgVal) :
    Except FormatError (Option Nat × List Char × List ArgVal) :=
  match read_format_parameter chars args with
  | Except.error e => Except.error e
  | Except.ok (some (result, false), chars1, args1) => Except.ok (some result, chars1, args1)
  | Except.ok (some (_, true), _, _) => Except.error FormatError.invalidPrecision
  | Except.ok (none, chars1, args1) => Except.ok (none, chars1, args1)

/-- The flag-consuming loop at the top of each directive. -/
def parseFlags : List Char → FormatParameters → FormatParameters × List Char
  | '-' :: rest, p => parseFlags rest { p with justify_left := true }
  | '+' :: rest, p => parseFlags rest { p with always_show_sign := true }
  | ' ' :: rest, p => parseFlags rest { p with prepend_space := true }
  | '#' :: rest, p => parseFlags rest { p with alternative := true }
  | '0' :: rest, p => parseFlags rest { p with leading_zeroes := true }
  | chars, p => (p, chars)

/-- Model of `match_formatter` of `format.rs`: dispatch on the conversion letter,
reading the value argument and delegating to the renderers.  The `%c`
branch converts the `c_char` to `u8` with `try_into().unwrap()`, which
panics for negative values. -/
def match_formatter (mem : List Nat) (chars : List Char) (params : FormatParameters)
    (args : List ArgVal) : Except FormatError (List Char × List Char × List ArgVal) :=
  match chars with
  | [] => Except.error FormatError.malformedFormatString
  | 'c' :: rest =>
    match args with
    | ArgVal.char v :: args1 =>
      if 0 ≤ v then Except.ok ([Char.ofNat v.toNat], rest, args1)
      else Except.error FormatError.panicked
    | _ => Except.error FormatError.argumentExhausted
  | 'd' :: rest | 'i' :: rest =>
    match args with
    | ArgVal.int v :: args1 =>
      match format_int_signed v
        ⟨(if params.leading_zeroes then '0' else ' '), params.justify_left,
          params.precision.getD 1, params.minimum_width.getD 0,
          params.always_show_sign, params.prepend_space⟩ with
      | Except.error e => Except.error e
      | Except.ok out => Except.ok (out, rest, args1)
    | _ => Except.error FormatError.argumentExhausted
  | 'u' :: rest =>
    unsignedConv Base.decimal false rest params args
  | 'o' :: rest =>
    unsignedConv Base.octal false rest params args
  | 'x' :: rest =>
    unsignedConv Base.hex false rest params args
  | 'X' :: rest =>
    unsignedConv Base.hex true rest params args
  | 's' :: rest =>
    match args with
    | ArgVal.ptr ptr :: args1 =>
      match print_string mem ptr params (if params.leading_zeroes then '0' else ' ') with
      | Except.error e => Except.error e
      | Except.ok out => Except.ok (out, rest, args1)
    | _ => Except.error FormatError.argumentExhausted
  | 'p' :: rest =>
    match args with
    | ArgVal.ptr a :: args1 => Except.ok ('0' :: 'x' :: natDigits 16 false a, rest, args1)
    | _ => Except.error FormatError.argumentExhausted
  | 'n' :: _ => Except.error FormatError.unsupportedConversion
  | 'h' :: _ | 'l' :: _ | 'j' :: _ | 'z' :: _ | 't' :: _ | 'L' :: _ =>
    Except.error FormatError.unsupportedConversion
  | 'f' :: _ | 'F' :: _ | 'e' :: _ | 'E' :: _ | 'a' :: _ | 'A' :: _ | 'g' :: _ | 'G' :: _ =>
    Except.error FormatError.unsupportedConversion
  | _ :: _ => Except.error FormatError.malformedFormatString
where
  /-- Shared body of the four unsigned-conversion arms. -/
  unsignedConv (base : Base) (capital : Bool) (rest : List Char)
      (params : FormatParameters) (args : List ArgVal) :
      Except FormatError (List Char × List Char × List ArgVal) :=
    match args with
    | ArgVal.uint v :: args1 =>
      match format_int_unsigned v
        ⟨(if params.leading_zeroes then '0' else ' '), base, params.justify_left,
          params.alternative, capital, params.precision.getD 1,
          params.minimum_width.getD 0⟩ with
      | Except.error e => Except.error e
      | Except.ok out => Except.ok (out, rest, args1)
    | _ => Except.error FormatError.argumentExhausted

/-- The main loop of `CFmtConverter`'s `Display` implementation: copy
literal characters, a `%%` emits one `%`, otherwise parse flags, width,
an optional `.`-introduced precision, and dispatch.  Fuelled; every
iteration consumes at least one format character, so `length + 1` fuel
never runs out. -/
def fmtLoop (mem : List Nat) : Nat → List Char → List ArgVal →
    Except FormatError (List Char)
  | 0, _, _ => Except.error FormatError.panicked
  | _ + 1, [], _ => Except.ok []
  | fuel + 1, c :: rest, args =>
    if c = '%' then
      match rest with
      | '%' :: rest1 =>
        match fmtLoop mem fuel rest1 args with
        | Except.error e => Except.error e
        | Except.ok out => Except.ok ('%' :: out)
      | _ => do
        let flagged := parseFlags rest {}
        let (mw, jl, chars1, args1) ←
          read_min_width flagged.2 args flagged.1.justify_left
        let (prec, chars2, args2) ←
          match chars1 with
          | '.' :: cr => read_precision cr args1
          | _ => Except.ok (none, chars1, args1)
        let params : FormatParameters :=
          { flagged.1 with justify_left := jl, minimum_width := mw, precision := prec }
        let (out, chars3, args3) ← match_formatter mem chars2 params args2
        let tail ← fmtLoop mem fuel chars3 args3
        Except.ok (out ++ tail)
    else
      match fmtLoop mem fuel rest args with
      | Except.error e => Except.error e
      | Except.ok out => Except.ok (c :: out)

/-- Render a format string against the modelled memory and argument
list: the single entry point the binding layer uses for
`AcpiOsVprintf`. -/
def render (mem : List Nat) (format : List Char) (args : List ArgVal) :
    Except FormatError (List Char) :=
  fmtLoop mem (format.length + 1) format args

/-! ### Helper lemmas -/

theorem natDigitsAux_zero (b : Nat) (cap : Bool) (f : Nat) : natDigitsAux b cap f 0 = [] := by
  cases f <;> simp [natDigitsAux]

theorem natDigitsAux_len (b : Nat) (cap : Bool) (hb : 2 ≤ b) :
    ∀ n f1 f2, 1 ≤ n → n ≤ f1 → n ≤ f2 →
      (natDigitsAux b cap f1 n).length = ilogAux b f2 n + 1 := by
  intro n
  induction n using Nat.strong_induction_on with
  | _ n ih =>
    intro f1 f2 h1 hf1 hf2
    obtain ⟨g1, rfl⟩ : ∃ g, f1 = g + 1 := ⟨f1 - 1, by omega⟩
    obtain ⟨g2, rfl⟩ : ∃ g, f2 = g + 1 := ⟨f2 - 1, by omega⟩
    simp only [natDigitsAux, ilogAux, if_neg (show ¬n = 0 by omega)]
    by_cases hlt : n < b
    · rw [if_pos hlt, Nat.div_eq_of_lt hlt, natDigitsAux_zero]
      simp
    · rw [if_neg hlt]
      have hdivlt : n / b < n := Nat.div_lt_self (by omega) (by omega)
      have hdiv1 : 1 ≤ n / b := (Nat.one_le_div_iff (by omega)).mpr (Nat.le_of_not_lt hlt)
      rw [List.length_append,
        ih (n / b) hdivlt g1 g2 hdiv1 (by omega) (by omega)]
      simp

theorem natDigits_length (b : Nat) (cap : Bool) (n : Nat) (hb : 2 ≤ b) :
    (natDigits b cap n).length = digitLen b n := by
  by_cases h : n = 0
  · subst h
    simp [natDigits, digitLen, checked_ilog]
  · rw [natDigits, if_neg h, digitLen, checked_ilog, if_neg (by omega)]
    simp only [Option.getD_some]
    exact natDigitsAux_len b cap hb n n n (by omega) le_rfl le_rfl

theorem natDigits_ne_nil (b : Nat) (cap : Bool) (n : Nat) (hb : 2 ≤ b) :
    natDigits b cap n ≠ [] := by
  intro h
  have hl := natDigits_length b cap n hb
  rw [h] at hl
  simp [digitLen] at hl

theorem padLeftZero_length (p : Nat) (s : List Char) :
    (padLeftZero p s).length = max p s.length := by
  simp only [padLeftZero, List.length_append, List.length_replicate]
  omega

theorem length_takeWhile_eq_findIdx {α : Type} (q : α → Bool) :
    ∀ l : List α, (l.takeWhile (fun a => !(q a))).length = l.findIdx q := by
  intro l
  induction l with
  | nil => simp
  | cons a t ih =>
    by_cases h : q a
    · simp [List.takeWhile_cons, List.findIdx_cons, h]
    · simp [List.takeWhile_cons, List.findIdx_cons, h, ih]

theorem length_takeWhile_le_length {α : Type} (p : α → Bool) :
    ∀ l : List α, (l.takeWhile p).length ≤ l.length := by
  intro l
  induction l with
  | nil => simp
  | cons a t ih =>
    by_cases h : p a
    · simp only [List.takeWhile_cons, h, if_true, List.length_cons]
      omega
    · simp [List.takeWhile_cons, h]

theorem takeWhile_congr_of_mem {α : Type} (p q : α → Bool) :
    ∀ l : List α, (∀ a ∈ l, p a = q a) → l.takeWhile p = l.takeWhile q := by
  intro l
  induction l with
  | nil => intro _; rfl
  | cons a t ih =>
    intro h
    have ha := h a (List.mem_cons_self a t)
    have ht := ih (fun x hx => h x (List.mem_cons_of_mem a hx))
    cases hq : q a <;> simp [List.takeWhile_cons, ha, hq, ht]

/-! ### Claim theorems -/

/-- C2: rendering the format `%#o` applied to 8 yields exactly the three
characters `010` (not `0010`), `%#x` applied to 255 yields `0xff`, and
`%#X` applied to 255 yields `0XFF`. -/
theorem C2_alternate_form_examples :
    render [] ['%', '#', 'o'] [ArgVal.uint 8] = Except.ok ['0', '1', '0']
    ∧ render [] ['%', '#', 'x'] [ArgVal.uint 255] = Except.ok ['0', 'x', 'f', 'f']
    ∧ render [] ['%', '#', 'X'] [ArgVal.uint 255] = Except.ok ['0', 'X', 'F', 'F'] :=
  ⟨rfl, rfl, rfl⟩

/-- C5: a negative dynamic width is replaced by its absolute value with
`justify_left` forced true, and `%*d` with width argument -5 and value 3
renders as `3` followed by four spaces. -/
theorem C5_negative_dynamic_width :
    (∀ (rest : List Char) (args : List ArgVal) (v : Int) (jl : Bool), v < 0 →
      read_min_width ('*' :: rest) (ArgVal.int v :: args) jl =
        Except.ok (some v.natAbs, true, rest, args))
    ∧ render [] ['%', '*', 'd'] [ArgVal.int (-5), ArgVal.int 3] =
        Except.ok ['3', ' ', ' ', ' ', ' '] := by
  constructor
  · intro rest args v jl hv
    simp [read_min_width, read_format_parameter, hv]
  · rfl

/-- C5 witness: the width rule at the concrete input -7. -/
theorem C5_witness :
    read_min_width ['*'] [ArgVal.int (-7)] false = Except.ok (some 7, true, [], []) :=
  C5_negative_dynamic_width.1 [] [] (-7) false (by decide)

/-- C7: a negative dynamic precision is the fatal `invalidPrecision`
error, aborting the whole render. -/
theorem C7_negative_dynamic_precision :
    (∀ (rest : List Char) (args : List ArgVal) (v : Int), v < 0 →
      read_precision ('*' :: rest) (ArgVal.int v :: args) =
        Except.error FormatError.invalidPrecision)
    ∧ render [] ['%', '.', '*', 'd'] [ArgVal.int (-1), ArgVal.int 5] =
        Except.error FormatError.invalidPrecision := by
  constructor
  · intro rest args v hv
    simp [read_precision, read_format_parameter, hv]
  · rfl

/-- C7 witness: the precision rule at the concrete input -1. -/
theorem C7_witness :
    read_precision ['*'] [ArgVal.int (-1)] = Except.error FormatError.invalidPrecision :=
  C7_negative_dynamic_precision.1 [] [] (-1) (by decide)

/-- C8: octal value 0 with precision 0 renders the empty digit sequence,
decimal and hex value 0 with precision 0 still emit one `0` digit, and
the digit emitter produces an empty digit sequence exactly in the
octal/zero-value/zero-precision case. -/
theorem C8_zero_precision_zero_value :
    render [] ['%', '.', '0', 'o'] [ArgVal.uint 0] = Except.ok []
    ∧ render [] ['%', '.', '0', 'u'] [ArgVal.uint 0] = Except.ok ['0']
    ∧ render [] ['%', '.', '0', 'x'] [ArgVal.uint 0] = Except.ok ['0']
    ∧ render [] ['%', '.', '0', 'X'] [ArgVal.uint 0] = Except.ok ['0']
    ∧ render [] ['%', '.', '0', 'd'] [ArgVal.int 0] = Except.ok ['0']
    ∧ (∀ (base : Base) (capital : Bool) (precision value : Nat),
        unsignedDigits base capital precision value = Except.ok [] ↔
          base = Base.octal ∧ capital = false ∧ value = 0 ∧ precision = 0) := by
  refine ⟨rfl, rfl, rfl, rfl, rfl, ?_⟩
  intro base capital precision value
  cases base with
  | octal =>
    cases capital with
    | false =>
      by_cases h : value = 0 ∧ precision = 0
      · simp [unsignedDigits, h]
      · simp [unsignedDigits, h, padLeftZero, List.append_eq_nil,
          natDigits_ne_nil 8 false value (by norm_num)]
    | true => simp [unsignedDigits]
  | decimal =>
    cases capital with
    | false =>
      simp [unsignedDigits, padLeftZero, List.append_eq_nil,
        natDigits_ne_nil 10 false value (by norm_num)]
    | true => simp [unsignedDigits]
  | hex =>
    cases capital <;>
      simp [unsignedDigits, padLeftZero, List.append_eq_nil,
        natDigits_ne_nil 16 _ value (by norm_num)]

/-- C8 witness: the digit-emptiness characterisation applied at the
octal/zero/zero instance. -/
theorem C8_witness :
    unsignedDigits Base.octal false 0 0 = Except.ok [] :=
  (C8_zero_precision_zero_value.2.2.2.2.2 Base.octal false 0 0).mpr ⟨rfl, rfl, rfl, rfl⟩

/-- C9 counterexample: the byte 200 passed as the (signed) `c_char`
argument value -56 does not render as the single character with code
200; the `c_char` to `u8` conversion panics instead. -/
theorem C9_counterexample :
    render [] ['%', 'c'] [ArgVal.char (-56)] = Except.error FormatError.panicked
    ∧ render [] ['%', 'c'] [ArgVal.char (-56)] ≠ Except.ok [Char.ofNat 200] :=
  ⟨rfl, fun h => Except.noConfusion h⟩

/-- C9 amended: for every nonnegative `c_char` argument (bytes 0..127)
and every combination of flags, width and precision, `%c` emits exactly
one character equal to that byte; the format parameters are ignored. -/
theorem C9_amended_char_conversion (mem : List Nat) (rest : List Char)
    (params : FormatParameters) (v : Int) (args : List ArgVal) (hv : 0 ≤ v) :
    match_formatter mem ('c' :: rest) params (ArgVal.char v :: args) =
      Except.ok ([Char.ofNat v.toNat], rest, args) := by
  simp [match_formatter, hv]

/-- C9 witness: the amended rule at the concrete byte 65. -/
theorem C9_witness :
    match_formatter [] ['c'] {} [ArgVal.char 65] =
      Except.ok ([Char.ofNat (Int.toNat 65)], [], []) :=
  C9_amended_char_conversion [] [] {} 65 [] (by decide)

/-- C4: a `%` at the end of the input and an unknown conversion letter
produce `malformedFormatString`; the bytes-written conversion `n`, the
length modifiers and the floating-point conversion letters produce
`unsupportedConversion`; no malformed or unsupported directive ever
passes text through silently. -/
theorem C4_error_classification :
    (∀ (mem : List Nat) (args : List ArgVal),
      render mem ['%'] args = Except.error FormatError.malformedFormatString)
    ∧ (∀ (mem : List Nat) (params : FormatParameters) (args : List ArgVal),
        match_formatter mem [] params args = Except.error FormatError.malformedFormatString)
    ∧ (∀ (c : Char),
        c ∉ (['c', 'd', 'i', 'u', 'o', 'x', 'X', 's', 'p', 'n', 'h', 'l', 'j', 'z', 't',
              'L', 'f', 'F', 'e', 'E', 'a', 'A', 'g', 'G'] : List Char) →
        ∀ (mem : List Nat) (rest : List Char) (params : FormatParameters) (args : List ArgVal),
          match_formatter mem (c :: rest) params args =
            Except.error FormatError.malformedFormatString)
    ∧ (∀ (mem : List Nat) (rest : List Char) (params : FormatParameters) (args : List ArgVal),
        match_formatter mem ('n' :: rest) params args =
          Except.error FormatError.unsupportedConversion)
    ∧ (∀ (c : Char), c ∈ (['h', 'l', 'j', 'z', 't', 'L'] : List Char) →
        ∀ (mem : List Nat) (rest : List Char) (params : FormatParameters) (args : List ArgVal),
          match_formatter mem (c :: rest) params args =
            Except.error FormatError.unsupportedConversion)
    ∧ (∀ (c : Char), c ∈ (['f', 'F', 'e', 'E', 'a', 'A', 'g', 'G'] : List Char) →
        ∀ (mem : List Nat) (rest : List Char) (params : FormatParameters) (args : List ArgVal),
          match_formatter mem (c :: rest) params args =
            Except.error FormatError.unsupportedConversion)
    ∧ render [] ['%', 'y'] [] = Except.error FormatError.malformedFormatString := by
  refine ⟨?_, ?_, ?_, ?_, ?_, ?_, rfl⟩
  · intro mem args
    rfl
  · intro mem params args
    rfl
  · intro c hc mem rest params args
    simp only [List.mem_cons, not_or] at hc
    rw [match_formatter.eq_def]
    split <;> simp_all
  · intro mem rest params args
    rfl
  · intro c hc mem rest params args
    simp only [List.mem_cons, List.not_mem_nil, or_false] at hc
    rcases hc with rfl | rfl | rfl | rfl | rfl | rfl <;> rfl
  · intro c hc mem rest params args
    simp only [List.mem_cons, List.not_mem_nil, or_false] at hc
    rcases hc with rfl | rfl | rfl | rfl | rfl | rfl | rfl | rfl <;> rfl

/-- C4 witness: the classification applied at the concrete letters `y`,
`h` and `f`. -/
theorem C4_witness :
    match_formatter [] ['y'] {} [] = Except.error FormatError.malformedFormatString
    ∧ match_formatter [] ['h'] {} [] = Except.error FormatError.unsupportedConversion
    ∧ match_formatter [] ['f'] {} [] = Except.error FormatError.unsupportedConversion :=
  ⟨C4_error_classification.2.2.1 'y' (by decide) [] [] {} [],
   C4_error_classification.2.2.2.2.1 'h' (by decide) [] [] {} [],
   C4_error_classification.2.2.2.2.2.1 'f' (by decide) [] [] {} []⟩

/-- C3 counterexample: `%05s` applied to the string `ab` pads with the
zero character, not with spaces. -/
theorem C3_counterexample :
    render [97, 98, 0] ['%', '0', '5', 's'] [ArgVal.ptr 0] =
      Except.ok ['0', '0', '0', 'a', 'b']
    ∧ render [97, 98, 0] ['%', '0', '5', 's'] [ArgVal.ptr 0] ≠
      Except.ok [' ', ' ', ' ', 'a', 'b'] := by
  refine ⟨rfl, fun h => ?_⟩
  have h0 : render [97, 98, 0] ['%', '0', '5', 's'] [ArgVal.ptr 0] =
      Except.ok ['0', '0', '0', 'a', 'b'] := rfl
  rw [h0] at h
  exact absurd (Except.ok.inj h) (by decide)

/-- C3 amended: a `%s` with a minimum width pads with the directive's
pad character -- `0` when the zero-pad flag was given, space otherwise
-- before the string unless `justify_left` is set, in which case after
it; the pad count compares the width against the byte length of the
span. -/
theorem C3_amended_string_padding (mem : List Nat) (rest : List Char)
    (params : FormatParameters) (ptr : Nat) (args : List ArgVal) (w : Nat) (s : List Char)
    (hw : params.minimum_width = some w)
    (hs : utf8Decode (stringBytes mem ptr params.precision) = some s) :
    match_formatter mem ('s' :: rest) params (ArgVal.ptr ptr :: args) =
      Except.ok (
        ((if params.justify_left then []
          else List.replicate (w - (stringBytes mem ptr params.precision).length)
            (if params.leading_zeroes then '0' else ' '))
         ++ s
         ++ (if params.justify_left then
              List.replicate (w - (stringBytes mem ptr params.precision).length)
                (if params.leading_zeroes then '0' else ' ')
             else [])),
        rest, args) := by
  simp only [match_formatter, print_string, hs, hw]

/-- C3 witness: the amended padding rule at a concrete zero-padded
right-justified case. -/
theorem C3_witness :
    match_formatter [97, 98, 0] ['s']
      { leading_zeroes := true, minimum_width := some 5 } [ArgVal.ptr 0] =
      Except.ok (['0', '0', '0', 'a', 'b'], [], []) := by
  have h := C3_amended_string_padding [97, 98, 0] []
    { leading_zeroes := true, minimum_width := some 5 } 0 [] 5 ['a', 'b'] rfl rfl
  simpa using h

/-- C6: with a precision `P`, the string renderer reads no byte at an
index at or beyond `P` (its output depends only on the first `P` bytes
after the pointer), its byte span is exactly the bytes at indices
`0 .. min P first-zero-index`, and `%.3s` yields `hel` for `hello` and
`abc` for a 3-byte non-terminated buffer. -/
theorem C6_precision_bounded_string :
    (∀ (m1 m2 : List Nat) (ptr : Nat) (params : FormatParameters) (pc : Char) (P : Nat),
      params.precision = some P →
      (∀ i, i < P → byteAt m1 (ptr + i) = byteAt m2 (ptr + i)) →
      print_string m1 ptr params pc = print_string m2 ptr params pc)
    ∧ (∀ (mem : List Nat) (ptr P : Nat),
        stringBytes mem ptr (some P) =
          (List.range (min P
              ((List.range P).findIdx (fun i => byteAt mem (ptr + i) == 0)))).map
            (fun i => byteAt mem (ptr + i)))
    ∧ render [104, 101, 108, 108, 111, 0] ['%', '.', '3', 's'] [ArgVal.ptr 0] =
        Except.ok ['h', 'e', 'l']
    ∧ render [97, 98, 99] ['%', '.', '3', 's'] [ArgVal.ptr 0] =
        Except.ok ['a', 'b', 'c'] := by
  refine ⟨?_, ?_, rfl, rfl⟩
  · intro m1 m2 ptr params pc P hP hag
    have hbytes : stringBytes m1 ptr (some P) = stringBytes m2 ptr (some P) := by
      simp only [stringBytes]
      have htw : (List.range P).takeWhile (fun i => byteAt m1 (ptr + i) != 0) =
          (List.range P).takeWhile (fun i => byteAt m2 (ptr + i) != 0) := by
        apply takeWhile_congr_of_mem
        intro i hi
        rw [hag i (List.mem_range.mp hi)]
      rw [htw]
      apply List.map_congr_left
      intro i hi
      have hiP : i < P := by
        have h1 : i < ((List.range P).takeWhile
            (fun i => byteAt m2 (ptr + i) != 0)).length := List.mem_range.mp hi
        have h2 : ((List.range P).takeWhile (fun i => byteAt m2 (ptr + i) != 0)).length ≤
            (List.range P).length :=
          length_takeWhile_le_length (fun i => byteAt m2 (ptr + i) != 0) (List.range P)
        simp only [List.length_range] at h2
        omega
      exact hag i hiP
    simp only [print_string, hP, hbytes]
  · intro mem ptr P
    simp only [stringBytes]
    have h1 : ((List.range P).takeWhile (fun i => byteAt mem (ptr + i) != 0)).length =
        (List.range P).findIdx (fun i => byteAt mem (ptr + i) == 0) := by
      have h := length_takeWhile_eq_findIdx
        (fun i => byteAt mem (ptr + i) == 0) (List.range P)
      simpa [bne] using h
    have h2 : (List.range P).findIdx (fun i => byteAt mem (ptr + i) == 0) ≤ P := by
      have h := @List.findIdx_le_length Nat (fun i => byteAt mem (ptr + i) == 0)
        (List.range P)
      simpa using h
    rw [h1, Nat.min_eq_right h2]

/-- C6 witness: two memories that agree on the three bytes below the
precision, one of which has a fourth byte, render identically. -/
theorem C6_witness :
    print_string [97, 98, 99] 0 { precision := some 3 } ' ' =
      print_string [97, 98, 99, 55] 0 { precision := some 3 } ' ' :=
  C6_precision_bounded_string.1 [97, 98, 99] [97, 98, 99, 55] 0
    { precision := some 3 } ' ' 3 rfl (by decide)

/-- C1 counterexample: `%#o` applied to 8 renders three characters,
`010`, not the `max(reduced precision, digit count) + width padding = 2`
characters the claim allows: the octal prefix `0` is emitted as a
separate character. -/
theorem C1_counterexample :
    render [] ['%', '#', 'o'] [ArgVal.uint 8] = Except.ok ['0', '1', '0']
    ∧ (['0', '1', '0'] : List Char).length ≠ max (1 - 1) (digitLen 8 8) + 0 :=
  ⟨rfl, by decide⟩

/-- C1 amended: with the alternate form and octal base the precision is
reduced by 1 before the max, but the one-character `0` prefix IS emitted
separately before the digit sequence, and it is not counted in the
width computation; the digit sequence is the digits zero-padded to the
reduced precision -- `max(reduced precision, digit count)` characters
-- except when the value is 0 and the reduced precision is 0, where the
digit sequence is empty and only the prefix is emitted.  The output is
therefore the width padding, the prefix character, and that digit
sequence: `pad + 1 + max(reduced precision, digit count)` characters in
all, or `pad + 1` in the zero-value zero-reduced-precision case. -/
theorem C1_amended_octal_alternate_form (value : Nat) (params : UnsignedIntFormatParams)
    (hb : params.base = Base.octal) (hp : params.prefix_flag = true)
    (hc : params.capital = false)
    (hm : max (params.precision - 1) (digitLen 8 value) < 4294967296) :
    format_int_unsigned value params = Except.ok (
      (if params.justify_left then []
       else List.replicate
         (params.min_length - max (params.precision - 1) (digitLen 8 value)) params.pad_char)
      ++ ['0']
      ++ (if value = 0 ∧ params.precision - 1 = 0 then []
          else padLeftZero (params.precision - 1) (natDigits 8 false value))
      ++ (if params.justify_left then
            List.replicate
              (params.min_length - max (params.precision - 1) (digitLen 8 value))
              params.pad_char
          else []))
    ∧ (∀ out, format_int_unsigned value params = Except.ok out →
        out.length = (params.min_length - max (params.precision - 1) (digitLen 8 value))
          + 1 + (if value = 0 ∧ params.precision - 1 = 0 then 0
                 else max (params.precision - 1) (digitLen 8 value))) := by
  obtain ⟨pc, base, jl, pf, cap, prec, minl⟩ := params
  simp only at hb hp hc hm
  subst hb hp hc
  have h1 : prec - 1 < 4294967296 := lt_of_le_of_lt (le_max_left _ _) hm
  have hdig : (natDigits 8 false value).length = digitLen 8 value :=
    natDigits_length 8 false value (by norm_num)
  have key : format_int_unsigned value ⟨pc, Base.octal, jl, true, false, prec, minl⟩ =
      Except.ok (
        (if jl then []
         else List.replicate (minl - max (prec - 1) (digitLen 8 value)) pc)
        ++ ['0']
        ++ (if value = 0 ∧ prec - 1 = 0 then []
            else padLeftZero (prec - 1) (natDigits 8 false value))
        ++ (if jl then List.replicate (minl - max (prec - 1) (digitLen 8 value)) pc
            else [])) := by
    simp [format_int_unsigned, unsignedDigits, Base.as_number, Base.prefixChars,
      h1, Nat.mod_eq_of_lt hm]
  refine ⟨key, fun out h => ?_⟩
  rw [key] at h
  rw [← Except.ok.inj h]
  by_cases hz : value = 0 ∧ prec - 1 = 0 <;>
    cases jl <;>
    simp [hz, List.length_append, List.length_replicate, padLeftZero_length, hdig] <;>
    omega

/-- C1 witness: the amended octal alternate-form rule at value 8 with
default precision 1 and no width (prefix plus two digits), and at value
0 with default precision 1 and no width (prefix only, the empty digit
sequence). -/
theorem C1_witness :
    format_int_unsigned 8 ⟨' ', Base.octal, false, true, false, 1, 0⟩ =
      Except.ok ['0', '1', '0']
    ∧ format_int_unsigned 0 ⟨' ', Base.octal, false, true, false, 1, 0⟩ =
      Except.ok ['0'] := by
  constructor
  · have h := (C1_amended_octal_alternate_form 8 ⟨' ', Base.octal, false, true, false, 1, 0⟩
      rfl rfl rfl (by decide)).1
    exact h.trans (congrArg Except.ok (by decide))
  · have h := (C1_amended_octal_alternate_form 0 ⟨' ', Base.octal, false, true, false, 1, 0⟩
      rfl rfl rfl (by decide)).1
    exact h.trans (congrArg Except.ok (by decide))

/-- C10: when `prepend_space` is set, the value nonnegative and
`always_print_sign` unset, the emitted space sign character is not
counted in the signed renderer's width computation: the output is the
width padding (computed from `max(precision, digit count)` alone), the
space, and the digits, so its length is `pad + 1 + max(precision,
digit count)`, and a minimum width of at least the content width yields
one character more than the minimum width, as in rendering the format
`(percent) 5d` applied to 3. -/
theorem C10_prepend_space_not_counted :
    (∀ (value : Int) (params : SignedIntFormatParams),
      params.prepend_space = true → params.always_print_sign = false → 0 ≤ value →
      max params.precision (digitLen 10 value.natAbs) < 4294967296 →
      format_int_signed value params = Except.ok (
        (if params.justify_left then []
         else List.replicate
           (params.min_length - max params.precision (digitLen 10 value.natAbs))
           params.pad_char)
        ++ [' '] ++ padLeftZero params.precision (natDigits 10 false value.natAbs)
        ++ (if params.justify_left then
              List.replicate
                (params.min_length - max params.precision (digitLen 10 value.natAbs))
                params.pad_char
            else []))
      ∧ (∀ out, format_int_signed value params = Except.ok out →
          out.length = (params.min_length - max params.precision (digitLen 10 value.natAbs))
            + 1 + max params.precision (digitLen 10 value.natAbs)))
    ∧ render [] ['%', ' ', '5', 'd'] [ArgVal.int 3] =
        Except.ok [' ', ' ', ' ', ' ', ' ', '3']
    ∧ ([' ', ' ', ' ', ' ', ' ', '3'] : List Char).length = 5 + 1 := by
  refine ⟨?_, rfl, rfl⟩
  intro value params hp ha hv hm
  obtain ⟨pc, jl, prec, minl, aps, psp⟩ := params
  simp only at hp ha hm
  subst hp ha
  have h1 : prec < 4294967296 := lt_of_le_of_lt (le_max_left _ _) hm
  have hnl : ¬value < 0 := not_lt.mpr hv
  have hdig : (natDigits 10 false value.natAbs).length = digitLen 10 value.natAbs :=
    natDigits_length 10 false value.natAbs (by norm_num)
  have key : format_int_signed value ⟨pc, jl, prec, minl, false, true⟩ =
      Except.ok (
        (if jl then []
         else List.replicate (minl - max prec (digitLen 10 value.natAbs)) pc)
        ++ [' '] ++ padLeftZero prec (natDigits 10 false value.natAbs)
        ++ (if jl then List.replicate (minl - max prec (digitLen 10 value.natAbs)) pc
            else [])) := by
    simp [format_int_signed, hnl, h1, Nat.mod_eq_of_lt hm]
  refine ⟨key, fun out h => ?_⟩
  rw [key] at h
  rw [← Except.ok.inj h]
  cases jl <;>
    simp [List.length_append, List.length_replicate, padLeftZero_length, hdig] <;>
    omega

/-- C10 witness: the rule at value 3 with precision 1 and minimum width
5 (the `(percent) 5d` case). -/
theorem C10_witness :
    format_int_signed 3 ⟨' ', false, 1, 5, false, true⟩ =
      Except.ok [' ', ' ', ' ', ' ', ' ', '3'] := by
  have h := (C10_prepend_space_not_counted.1 3 ⟨' ', false, 1, 5, false, true⟩
    rfl rfl (by decide) (by decide)).1
  exact h.trans (congrArg Except.ok (by decide))

end CFmt
